import Mathlib

/-!
Verification of the mcp-highlighter capture-and-deduplication pipeline.

The definitions below are shallow embeddings of the JavaScript source:
* `LocalMCPClient.generateContentHash` embeds the server hash
  (local-mcp-client.js), `Extension.generateContentHash` the browser-side
  copy (extension/content.js), `Legacy.contentHash` the base64-prefix hash
  of the legacy scanner (content.js line 142).
* `Extension.scanMCPBlocks` embeds the block-extraction part of `scanMCP`
  (the JS regex engine semantics for the fixed pattern are implemented
  directly, with the same greedy/lazy backtracking order).
* `storeBatch`, `hashExists`, `searchMemories`, `loadMemoryStore`,
  `saveMemoryStore`, `mcpStoreHandler` embed the Memory Store and its
  HTTP handlers from local-mcp-client.js.

JavaScript machine arithmetic is modelled with `Int`/`Nat` and explicit
reduction mod 2^32 (`toInt32`); strings are Lean `String`s over code
points (all inputs relevant to the claims are ASCII, where JS UTF-16
code units and code points coincide).
-/

set_option maxRecDepth 100000

/-- The whitespace class of JS regex `\s` and of `String.prototype.trim`
(WhiteSpace ∪ LineTerminator as listed in the ECMAScript spec). -/
def isJsWS (c : Char) : Bool :=
  c.toNat = 9 || c.toNat = 10 || c.toNat = 11 || c.toNat = 12 || c.toNat = 13 ||
  c.toNat = 32 || c.toNat = 160 || c.toNat = 5760 ||
  (8192 ≤ c.toNat && c.toNat ≤ 8202) || c.toNat = 8232 || c.toNat = 8233 ||
  c.toNat = 8239 || c.toNat = 8287 || c.toNat = 12288 || c.toNat = 65279

/-- JS LineTerminator characters (`\n`, `\r`, U+2028, U+2029). -/
def isLineTerm (c : Char) : Bool :=
  c.toNat = 10 || c.toNat = 13 || c.toNat = 8232 || c.toNat = 8233

/-- `trim` on a character list: drop leading and trailing JS whitespace. -/
def jsTrimList (l : List Char) : List Char :=
  ((l.dropWhile isJsWS).reverse.dropWhile isJsWS).reverse

/-- Embedding of `String.prototype.trim`. -/
def jsTrim (s : String) : String :=
  String.mk (jsTrimList s.data)

/-- ASCII `toLowerCase` (the source only ever compares ASCII tag and
search strings; non-ASCII characters are left unchanged). -/
def jsToLowerChar (c : Char) : Char :=
  if 65 ≤ c.toNat ∧ c.toNat ≤ 90 then Char.ofNat (c.toNat + 32) else c

/-- Embedding of `String.prototype.toLowerCase` (ASCII range). -/
def jsToLower (s : String) : String :=
  String.mk (s.data.map jsToLowerChar)

/-- Embedding of `String.prototype.includes`: substring test. -/
def hasSubstr (hay sub : List Char) : Bool :=
  (List.range (hay.length + 1)).any (fun i => (hay.drop i).take sub.length == sub)

/-- Embedding of `String.prototype.split` with a single-character
separator: `l.count sep + 1` fields, empty fields preserved (JS
`"a  b".split(' ')` has three fields). -/
def jsSplitChar (sep : Char) : List Char → List (List Char)
  | [] => [[]]
  | c :: rest =>
    match jsSplitChar sep rest with
    | [] => [[]]
    | t :: ts => if c = sep then [] :: t :: ts else (c :: t) :: ts

/-- ECMAScript ToInt32: reduce an integer mod 2^32 into
[-2^31, 2^31). This is what `x & x` and the operands of `<<` compute. -/
def toInt32 (n : Int) : Int :=
  if n % 4294967296 < 2147483648 then n % 4294967296
  else n % 4294967296 - 4294967296

/-- One step of the JS rolling hash:
`hash = ((hash << 5) - hash) + char; hash = hash & hash`. -/
def jsHashStep (acc : Int) (code : Nat) : Int :=
  toInt32 (toInt32 (acc * 32) - acc + (code : Int))

/-- Digit characters of JS `Number.prototype.toString(36)`:
0-9 then lowercase a-z. -/
def digitChar36 (n : Nat) : Char :=
  if n < 10 then Char.ofNat (48 + n) else Char.ofNat (87 + n)

/-- Base-36 digit list accumulator. The fuel only bounds the digit
count; 40 digits cover every number below 36^40, far above the 2^32
range of the hash accumulator. -/
def toBase36Go : Nat → Nat → List Char → List Char
  | 0, _, acc => acc
  | fuel + 1, n, acc =>
    if n < 36 then digitChar36 n :: acc
    else toBase36Go fuel (n / 36) (digitChar36 (n % 36) :: acc)

/-- Embedding of `Number.prototype.toString(36)` for naturals. -/
def toBase36 (n : Nat) : String :=
  String.mk (toBase36Go 40 n [])

namespace LocalMCPClient

/-- Embedding of `generateContentHash` from local-mcp-client.js
(the store-side authoritative hash): trim, fold
`hash = ((hash << 5) - hash) + charCode; hash = hash & hash`,
then `Math.abs(hash).toString(36)`. -/
def generateContentHash (content : String) : String :=
  let str := jsTrim content
  let h := str.data.foldl (fun acc c => jsHashStep acc c.toNat) 0
  toBase36 h.natAbs

end LocalMCPClient

namespace Extension

/-- Embedding of `generateContentHash` from extension/content.js
(the producer-side pre-filter hash); the JS body is character-for-
character the same algorithm as the server copy. -/
def generateContentHash (content : String) : String :=
  let str := jsTrim content
  let h := str.data.foldl (fun acc c => jsHashStep acc c.toNat) 0
  toBase36 h.natAbs

end Extension

/-- Modelled from the spec (§4.1 wording, for the refinement claim):
trim, fold `acc = (acc * 31 + codepoint)` through a signed 32-bit
accumulator, render `abs(acc)` in base 36. -/
def specContentHash (s : String) : String :=
  let str := jsTrim s
  let h := str.data.foldl (fun acc c => toInt32 (acc * 31 + (c.toNat : Int))) 0
  toBase36 h.natAbs

namespace Legacy

/-- UTF-8 bytes of one code point (what
`unescape(encodeURIComponent(s))` exposes to `btoa`). -/
def utf8Bytes (c : Char) : List Nat :=
  let n := c.toNat
  if n < 128 then [n]
  else if n < 2048 then [192 + n / 64, 128 + n % 64]
  else if n < 65536 then [224 + n / 4096, 128 + (n / 64) % 64, 128 + n % 64]
  else [240 + n / 262144, 128 + (n / 4096) % 64, 128 + (n / 64) % 64, 128 + n % 64]

/-- Base64 digit characters: A-Z, a-z, 0-9, +, /. -/
def b64Digit (n : Nat) : Char :=
  if n < 26 then Char.ofNat (65 + n)
  else if n < 52 then Char.ofNat (71 + n)
  else if n < 62 then Char.ofNat (n - 4)
  else if n = 62 then '+' else '/'

/-- Embedding of `btoa` over a byte list. -/
def base64Encode : List Nat → List Char
  | [] => []
  | [a] => [b64Digit (a / 4), b64Digit (a % 4 * 16), '=', '=']
  | [a, b] => [b64Digit (a / 4), b64Digit (a % 4 * 16 + b / 16), b64Digit (b % 16 * 4), '=']
  | a :: b :: c :: rest =>
    b64Digit (a / 4) :: b64Digit (a % 4 * 16 + b / 16) ::
    b64Digit (b % 16 * 4 + c / 64) :: b64Digit (c % 64) :: base64Encode rest

/-- Embedding of the legacy scanner hash (content.js line 142):
`btoa(unescape(encodeURIComponent(content))).substring(0, 20)`. -/
def contentHash (content : String) : String :=
  String.mk ((base64Encode (content.data.flatMap utf8Bytes)).take 20)

end Legacy

namespace Extension

/-!
Block extraction: embedding of the `scanMCP` pipeline of
extension/content.js.  The source finds blocks with

  text.match(/^\s*\[MCP-START\]\s*$([\s\S]*?)^\s*\[MCP-END\]\s*$/gm)

and re-matches each full match (without `g`) to take capture group 1.
The matcher below implements exactly this pattern over a character
list, with ECMAScript multiline `^`/`$` anchors, greedy `\s*` with
backtracking, and the lazy (shortest-first) capture `([\s\S]*?)`.
Positions are indices into the list; a match attempt at position `p`
yields the capture bounds and the match end, and the `g` loop advances
like `RegExp.prototype.exec` (leftmost match, continue from the match
end).
-/

/-- Multiline `^`: start of input or just after a LineTerminator. -/
def lineStart (cs : List Char) (i : Nat) : Bool :=
  match i with
  | 0 => true
  | j + 1 =>
    match cs[j]? with
    | some c => isLineTerm c
    | none => false

/-- Multiline `$`: end of input or just before a LineTerminator. -/
def lineEnd (cs : List Char) (i : Nat) : Bool :=
  match cs[i]? with
  | some c => isLineTerm c
  | none => i == cs.length

/-- Length of the maximal `\s` run starting at `i`. -/
def wsRunLen (cs : List Char) (i : Nat) : Nat :=
  ((cs.drop i).takeWhile isJsWS).length

/-- Try `f n, f (n-1), ..., f 0` and return the first success
(the backtracking order of a greedy quantifier). -/
def firstSomeDesc {α : Type} (f : Nat → Option α) : Nat → Option α
  | 0 => f 0
  | n + 1 =>
    match f (n + 1) with
    | some a => some a
    | none => firstSomeDesc f n

/-- Try `f i, f (i+1), ..., f (i+n)` and return the first success
(the order of a lazy quantifier). -/
def firstSomeAsc {α : Type} (f : Nat → Option α) (i : Nat) : Nat → Option α
  | 0 => f i
  | n + 1 =>
    match f i with
    | some a => some a
    | none => firstSomeAsc f (i + 1) n

/-- Match `\s*LIT` at `i` (greedy whitespace, backtracking into the
continuation), passing the position after the literal on. -/
def matchWsLit {α : Type} (cs : List Char) (i : Nat) (lit : List Char)
    (cont : Nat → Option α) : Option α :=
  firstSomeDesc
    (fun n => if (cs.drop (i + n)).take lit.length = lit then cont (i + n + lit.length) else none)
    (wsRunLen cs i)

/-- Match `\s*$` at `i` (greedy whitespace, backtracking into the
continuation), passing the anchor position on. -/
def matchWsAnchor {α : Type} (cs : List Char) (i : Nat)
    (cont : Nat → Option α) : Option α :=
  firstSomeDesc
    (fun n => if lineEnd cs (i + n) then cont (i + n) else none)
    (wsRunLen cs i)

def mcpStartMarker : List Char := "[MCP-START]".data

def mcpEndMarker : List Char := "[MCP-END]".data

/-- Match the closing part `^\s*\[MCP-END\]\s*$` at `e`; returns the
match end position. -/
def matchClose (cs : List Char) (e : Nat) : Option Nat :=
  if lineStart cs e then
    matchWsLit cs e mcpEndMarker (fun j => matchWsAnchor cs j (fun k => some k))
  else none

/-- Attempt the whole pattern at position `p`.  On success returns
`(captureStart, captureEnd, matchEnd)`.  The capture is lazy: the
shortest extent whose suffix matches the closing part wins. -/
def attemptAt (cs : List Char) (p : Nat) : Option (Nat × Nat × Nat) :=
  if lineStart cs p then
    matchWsLit cs p mcpStartMarker (fun j =>
      matchWsAnchor cs j (fun s =>
        firstSomeAsc
          (fun e =>
            match matchClose cs e with
            | some endPos => some (s, e, endPos)
            | none => none)
          s (cs.length - s)))
  else none

/-- The `g` loop of `String.prototype.match`: collect the full matched
substrings left to right, continuing after each match (with the
standard empty-match guard).  The fuel only bounds the iteration count;
`cs.length + 2` always suffices because the position strictly
increases. -/
def scanAllGo (cs : List Char) : Nat → Nat → List (List Char)
  | 0, _ => []
  | fuel + 1, p =>
    if p > cs.length then []
    else
      match attemptAt cs p with
      | some (_, _, endPos) =>
        (cs.drop p).take (endPos - p) ::
          scanAllGo cs fuel (if endPos = p then p + 1 else endPos)
      | none => scanAllGo cs fuel (p + 1)

/-- First (leftmost) match of the pattern, as used by the per-block
re-match without the `g` flag. -/
def findMatchGo (cs : List Char) : Nat → Nat → Option (Nat × Nat × Nat)
  | 0, _ => none
  | fuel + 1, p =>
    if p > cs.length then none
    else
      match attemptAt cs p with
      | some r => some r
      | none => findMatchGo cs fuel (p + 1)

/-- Embedding of the block-extraction pipeline of `scanMCP`
(extension/content.js): find all pattern matches, re-match each to take
capture group 1, skip falsy captures, trim, skip empty content. -/
def scanMCPBlocks (text : String) : List String :=
  (scanAllGo text.data (text.data.length + 2) 0).filterMap (fun bm =>
    match findMatchGo bm (bm.length + 2) 0 with
    | none => none
    | some (s, e, _) =>
      let cap := (bm.drop s).take (e - s)
      if cap.isEmpty then none
      else
        let content := jsTrimList cap
        if content.isEmpty then none else some (String.mk content))

end Extension

namespace LocalMCPClient

/-!
Memory Store: embedding of the `/mcp/*` route handlers of
local-mcp-client.js.  `Option String` / `Option Nat` fields model
possibly-absent JS values; where the source applies `x || default`,
the empty string (respectively 0) is falsy and also selects the
default.  Nondeterministic externals are parameters: fresh ids from
`generateId` are an id list consumed per stored record, the timestamp
is a string argument, `Date` parsing is a `String → Int` argument, and
disk writes are a `WriteOutcome` argument.
-/

/-- An incoming block of a `/mcp/store` request body. -/
structure Block where
  content : String
  hash : Option String
  wordCount : Option Nat
  formatVersion : Option String
deriving DecidableEq, Repr

/-- The `metadata` object of a request plus the user-agent header. -/
structure Metadata where
  url : Option String
  title : Option String
  userAgent : Option String
deriving DecidableEq, Repr

/-- The `source` value stored on a record. -/
structure Source where
  url : String
  title : String
  userAgent : Option String
deriving DecidableEq, Repr

/-- A persisted memory entry. -/
structure Record where
  id : String
  content : String
  contentHash : String
  timestamp : String
  source : Source
  tags : List String
  wordCount : Nat
  formatVersion : String
deriving DecidableEq, Repr

/-- `x || d` for an optional string (absent and empty are falsy). -/
def jsOrStr (x : Option String) (d : String) : String :=
  match x with
  | some s => if s = "" then d else s
  | none => d

/-- The source value built by the store handler:
`url: metadata.url || 'unknown'`, etc. -/
def sourceOf (meta : Metadata) : Source :=
  ⟨jsOrStr meta.url "unknown", jsOrStr meta.title "unknown", meta.userAgent⟩

/-- JS `\w` (ASCII word character). -/
def isWordChar (c : Char) : Bool :=
  (48 ≤ c.toNat && c.toNat ≤ 57) || (65 ≤ c.toNat && c.toNat ≤ 90) ||
  (97 ≤ c.toNat && c.toNat ≤ 122) || c.toNat = 95

/-- All matches of `/#[\w]+/g`, already stripped of the leading `#`
(the source maps `tag.substring(1)` over the matches).  Fuel bounds the
scan length; `length + 1` always suffices. -/
def hashtagsGo : Nat → List Char → List String
  | 0, _ => []
  | _, [] => []
  | fuel + 1, c :: rest =>
    if c = '#' then
      let run := rest.takeWhile isWordChar
      if run.isEmpty then hashtagsGo fuel rest
      else String.mk run :: hashtagsGo fuel (rest.drop run.length)
    else hashtagsGo fuel rest

/-- `[...new Set(tags)]`: deduplicate keeping first occurrences. -/
def dedupFirst : List String → List String → List String
  | _, [] => []
  | seen, x :: xs =>
    if x ∈ seen then dedupFirst seen xs
    else x :: dedupFirst (x :: seen) xs

/-- Embedding of `extractTags`: hashtags, then the `code` / `todo` /
`url` content-type tags, deduplicated. -/
def extractTags (content : String) : List String :=
  let tags := hashtagsGo (content.data.length + 1) content.data
  let tags := tags ++
    (if hasSubstr content.data "```".data || hasSubstr content.data "function".data ||
        hasSubstr content.data "class".data then ["code"] else [])
  let tags := tags ++
    (if hasSubstr content.data "TODO".data || hasSubstr content.data "FIXME".data
     then ["todo"] else [])
  let tags := tags ++
    (if hasSubstr content.data "http://".data || hasSubstr content.data "https://".data
     then ["url"] else [])
  dedupFirst [] tags

/-- `block.hash || this.generateContentHash(block.content)`. -/
def effectiveHash (b : Block) : String :=
  match b.hash with
  | some h => if h = "" then generateContentHash b.content else h
  | none => generateContentHash b.content

/-- `block.wordCount || block.content.split(' ').length` — note the
single-space separator. -/
def effectiveWordCount (b : Block) : Nat :=
  match b.wordCount with
  | some w => if w = 0 then (jsSplitChar ' ' b.content.data).length else w
  | none => (jsSplitChar ' ' b.content.data).length

/-- The memory entry built for a non-duplicate block. -/
def buildRecord (id : String) (b : Block) (h : String) (src : Source) (ts : String) :
    Record :=
  { id := id, content := b.content, contentHash := h, timestamp := ts, source := src,
    tags := extractTags b.content, wordCount := effectiveWordCount b,
    formatVersion := jsOrStr b.formatVersion "v1" }

/-- Result of a `/mcp/store` batch: the updated in-memory list, the
stored entries (in order), and the duplicate details `(hash,
existingId)` (in order). -/
structure StoreOutcome where
  newStore : List Record
  stored : List Record
  duplicates : List (String × String)
deriving DecidableEq, Repr

/-- The `for (const block of blocks)` loop of the store handler:
look up the hash in the current (already extended) store, record a
duplicate or push a new entry. -/
def storeLoop (src : Source) (ts : String) :
    List Block → List String → List Record → StoreOutcome
  | [], _, store => ⟨store, [], []⟩
  | b :: bs, ids, store =>
    let h := effectiveHash b
    match store.find? (fun m => m.contentHash == h) with
    | some m =>
      let rest := storeLoop src ts bs ids store
      ⟨rest.newStore, rest.stored, (h, m.id) :: rest.duplicates⟩
    | none =>
      let r := buildRecord (ids.headD "generated-id") b h src ts
      let rest := storeLoop src ts bs ids.tail (store ++ [r])
      ⟨rest.newStore, r :: rest.stored, rest.duplicates⟩

/-- Embedding of the `/mcp/store` batch processing over store state
`S`. -/
def storeBatch (S : List Record) (blocks : List Block) (meta : Metadata)
    (ids : List String) (ts : String) : StoreOutcome :=
  storeLoop (sourceOf meta) ts blocks ids S

/-- The duplicate membership test used by both `/mcp/check-hashes`
(`memoryStore.some(...)`) and, via `find?`, the store path. -/
def hashExists (S : List Record) (h : String) : Bool :=
  S.any (fun m => m.contentHash == h)

/-- Embedding of the `/mcp/check-hashes` endpoint: the per-hash status
list (the JSON object keyed by hash). -/
def checkHashes (S : List Record) (hashes : List String) : List (String × Bool) :=
  hashes.map (fun h => (h, hashExists S h))

/-- Outcome of a disk write, an external parameter. -/
inductive WriteOutcome
  | ok
  | diskError
deriving DecidableEq, Repr

/-- The raw `fs.writeFile` effect. -/
def writeFileModel : WriteOutcome → Except String Unit
  | .ok => .ok ()
  | .diskError => .error "disk write error"

/-- Embedding of `saveMemoryStore`: the write is wrapped in
`try/catch` whose catch only logs, so no error ever escapes. -/
def saveMemoryStore (w : WriteOutcome) : Except String Unit :=
  match writeFileModel w with
  | .ok u => .ok u
  | .error _ => .ok ()

/-- The HTTP response of the `/mcp/store` handler. -/
inductive StoreResponse
  | success (stored : Nat) (duplicates : Nat) (totalMemories : Nat)
  | badRequest
  | serverError
deriving DecidableEq, Repr

/-- Embedding of the whole `/mcp/store` handler: validation, batch
processing, persistence, response.  `blocks? = none` models a missing
or non-array `blocks` field.  Returns the response and the resulting
in-memory store. -/
def mcpStoreHandler (S : List Record) (blocks? : Option (List Block)) (meta : Metadata)
    (ids : List String) (ts : String) (w : WriteOutcome) : StoreResponse × List Record :=
  match blocks? with
  | none => (.badRequest, S)
  | some bs =>
    let o := storeBatch S bs meta ids ts
    match saveMemoryStore w with
    | .error _ => (.serverError, o.newStore)
    | .ok _ => (.success o.stored.length o.duplicates.length o.newStore.length, o.newStore)

/-- What the backing file read produced at startup. -/
inductive ReadResult
  | ok (data : String)
  | enoent
  | otherError
deriving DecidableEq, Repr

/-- Startup outcome: either the process starts with a store, or it
stops with a fatal error. -/
inductive LoadOutcome
  | started (store : List Record)
  | fatal
deriving DecidableEq, Repr

/-- Embedding of `loadMemoryStore`: `JSON.parse` is the `parse`
argument (`none` = malformed data throws).  The source wraps read and
parse in `try/catch`; the catch only logs (non-ENOENT) and sets
`this.memoryStore = []`, so startup always proceeds. -/
def loadMemoryStore (read : ReadResult) (parse : String → Option (List Record)) :
    LoadOutcome :=
  match read with
  | .ok data =>
    match parse data with
    | some store => .started store
    | none => .started []
  | .enoent => .started []
  | .otherError => .started []

/-- A `/mcp/memories` query string. -/
structure Query where
  limit : Option Nat
  search : Option String
  tags : Option String
  since : Option String
deriving DecidableEq, Repr

/-- The free-text filter: case-insensitive substring of the content or
of any tag. -/
def matchSearch (m : Record) (s : String) : Bool :=
  let sl := jsToLower s
  hasSubstr (jsToLower m.content).data sl.data ||
    m.tags.any (fun t => hasSubstr (jsToLower t).data sl.data)

/-- The tag filter: some record tag (lowercased) is a member of the
comma-split, trimmed, lowercased caller tag list. -/
def matchTags (m : Record) (t : String) : Bool :=
  let tagList := (jsSplitChar ',' t.data).map (fun seg => jsToLower (String.mk (jsTrimList seg)))
  m.tags.any (fun tag => tagList.contains (jsToLower tag))

/-- The date filter: `new Date(memory.timestamp) >= new Date(since)`,
with `pd` the Date-parsing oracle. -/
def matchSince (pd : String → Int) (m : Record) (d : String) : Bool :=
  pd d ≤ pd m.timestamp

/-- Newest-first comparison used by the result sort. -/
def rDesc (pd : String → Int) (a b : Record) : Prop :=
  pd b.timestamp ≤ pd a.timestamp

instance rDescDecidable (pd : String → Int) : DecidableRel (rDesc pd) :=
  fun a b => Int.decLe (pd b.timestamp) (pd a.timestamp)

/-- Embedding of the `/mcp/memories` handler: the three independently
optional filters applied in sequence (a falsy — absent or empty —
criterion is skipped), newest-first stable sort, then `slice(0,
limit)` with default limit 50. -/
def searchMemories (pd : String → Int) (S : List Record) (q : Query) : List Record :=
  let f1 :=
    match q.search with
    | some s => if s = "" then S else S.filter (fun m => matchSearch m s)
    | none => S
  let f2 :=
    match q.tags with
    | some t => if t = "" then f1 else f1.filter (fun m => matchTags m t)
    | none => f1
  let f3 :=
    match q.since with
    | some d => if d = "" then f2 else f2.filter (fun m => matchSince pd m d)
    | none => f2
  (List.insertionSort (rDesc pd) f3).take (q.limit.getD 50)

/-- The conjunction of the three optional criteria as one predicate
(the spec-side reading of the filter pipeline). -/
def searchPred (pd : String → Int) (q : Query) (m : Record) : Bool :=
  (match q.search with
   | some s => s == "" || matchSearch m s
   | none => true) &&
  (match q.tags with
   | some t => t == "" || matchTags m t
   | none => true) &&
  (match q.since with
   | some d => d == "" || matchSince pd m d
   | none => true)

/-- Embedding of the `DELETE /mcp/memories/:id` handler's effect on
the store: `findIndex` then `splice(index, 1)`. -/
def deleteById (S : List Record) (i : String) : List Record :=
  match S.findIdx? (fun m => m.id == i) with
  | some k => S.eraseIdx k
  | none => S

/-- A mutating operation on the Memory Store, with its external
parameters. -/
inductive StoreOp
  | store (blocks : List Block) (meta : Metadata) (ids : List String) (ts : String)
  | delete (id : String)
  | clear

/-- Effect of one operation on the in-memory record list. -/
def applyOp (S : List Record) : StoreOp → List Record
  | .store blocks meta ids ts => (storeBatch S blocks meta ids ts).newStore
  | .delete i => deleteById S i
  | .clear => []

/-- The store reached from the empty startup store by a sequence of
operations. -/
def applyOps (ops : List StoreOp) : List Record :=
  ops.foldl applyOp []

/-- No two records in the list share a content hash. -/
def HashesDistinct (S : List Record) : Prop :=
  S.Pairwise (fun a b => a.contentHash ≠ b.contentHash)

end LocalMCPClient

/-- Number of maximal non-whitespace runs, i.e. the token count of
splitting on runs of one-or-more whitespace characters (the spec's
word-count rule; used to compare against the code's behavior). -/
def wsRunTokensGo : Bool → List Char → Nat
  | _, [] => 0
  | inWord, c :: rest =>
    if isJsWS c then wsRunTokensGo false rest
    else (if inWord then 0 else 1) + wsRunTokensGo true rest

/-- Modelled from the spec: the number of whitespace-delimited tokens
of a string (splitting on runs of one-or-more whitespace). -/
def wsRunTokens (s : String) : Nat :=
  wsRunTokensGo false s.data

/-- A concrete record used to instantiate universally quantified
theorems at a sample input. -/
def sampleRecord : LocalMCPClient.Record :=
  ⟨"id1", "hello", "h1", "2024-01-01T00:00:00.000Z", ⟨"u", "t", none⟩, [], 1, "v1"⟩

/-! ## Theorems -/

theorem toInt32_emod (n : Int) : toInt32 n % 4294967296 = n % 4294967296 := by
  unfold toInt32
  split <;> omega

theorem toInt32_congr {a b : Int} (h : a % 4294967296 = b % 4294967296) :
    toInt32 a = toInt32 b := by
  unfold toInt32
  rw [h]

theorem jsHashStep_eq_spec (acc : Int) (code : Nat) :
    jsHashStep acc code = toInt32 (acc * 31 + (code : Int)) := by
  unfold jsHashStep
  apply toInt32_congr
  have h := toInt32_emod (acc * 32)
  omega

theorem foldl_hashStep_eq (l : List Char) :
    ∀ acc, l.foldl (fun a c => jsHashStep a c.toNat) acc =
      l.foldl (fun a c => toInt32 (a * 31 + (c.toNat : Int))) acc := by
  induction l with
  | nil => intro acc; rfl
  | cons c cs ih =>
    intro acc
    simp only [List.foldl_cons]
    rw [jsHashStep_eq_spec, ih]

/-- C1 counterexample: the legacy scanner's base64-prefix hash does
not agree with the rolling-hash implementations — at content `"A"` the
rolling hashes give `"1t"` while the legacy hash gives `"QQ=="`. -/
theorem legacy_hash_disagrees_at_A :
    Legacy.contentHash "A" = "QQ==" ∧
    LocalMCPClient.generateContentHash "A" = "1t" ∧
    Extension.generateContentHash "A" = "1t" ∧
    Legacy.contentHash "A" ≠ LocalMCPClient.generateContentHash "A" ∧
    Legacy.contentHash "A" ≠ Extension.generateContentHash "A" := by
  decide

/-- C1 (amended): the extension's `generateContentHash` and the
server's `generateContentHash` compute the identical function, and
both realize the specified algorithm — trim, fold the character codes
through a signed 32-bit accumulator by `acc * 31 + code`, render the
absolute value in base 36.  (The legacy base64-prefix hash is a
distinct scheme and does not agree; see the counterexample.) -/
theorem generateContentHash_agree (s : String) :
    Extension.generateContentHash s = LocalMCPClient.generateContentHash s ∧
    LocalMCPClient.generateContentHash s = specContentHash s := by
  refine ⟨rfl, ?_⟩
  simp only [LocalMCPClient.generateContentHash, specContentHash]
  rw [foldl_hashStep_eq]

/-- C4 counterexample: on the nested input the extractor does not
produce the claimed content `"A\n[MCP-START]\nB\n[MCP-END]"`. -/
theorem nested_extraction_counterexample :
    Extension.scanMCPBlocks "[MCP-START]\nA\n[MCP-START]\nB\n[MCP-END]\n[MCP-END]" ≠
      ["A\n[MCP-START]\nB\n[MCP-END]"] := by
  decide

/-- C4 (amended): on the nested input extraction yields exactly one
block whose content is `"A\n[MCP-START]\nB"` — the lazy capture pairs
the first start-marker line with the *nearest* following end-marker
line, so the inner start marker is literal content and the final
end-marker line is left unmatched. -/
theorem nested_extraction_result :
    Extension.scanMCPBlocks "[MCP-START]\nA\n[MCP-START]\nB\n[MCP-END]\n[MCP-END]" =
      ["A\n[MCP-START]\nB"] := by
  decide

/-- C5 counterexample: with backing data present but unparseable, the
load completes startup with an empty store instead of failing. -/
theorem load_corrupt_proceeds_with_empty_store :
    LocalMCPClient.loadMemoryStore (.ok "bad json data") (fun _ => none) =
      .started [] ∧
    LocalMCPClient.LoadOutcome.started [] ≠ LocalMCPClient.LoadOutcome.fatal := by
  exact ⟨rfl, by decide⟩

/-- C5 (amended): when the backing file exists but its data is
malformed (the parse fails), `loadMemoryStore` catches the error, only
logs it, and starts up with an empty in-memory store over the existing
data. -/
theorem load_corrupt_starts_empty (data : String)
    (parse : String → Option (List LocalMCPClient.Record)) (h : parse data = none) :
    LocalMCPClient.loadMemoryStore (.ok data) parse = .started [] := by
  simp only [LocalMCPClient.loadMemoryStore, h]

theorem load_corrupt_starts_empty_witness :
    ((fun _ => none : String → Option (List LocalMCPClient.Record)) "bad-json") = none ∧
    LocalMCPClient.loadMemoryStore (.ok "bad-json") (fun _ => none) = .started [] :=
  ⟨rfl, load_corrupt_starts_empty "bad-json" (fun _ => none) rfl⟩

namespace LocalMCPClient

theorem hashExists_false_iff {S : List Record} {h : String} :
    hashExists S h = false ↔ ∀ m ∈ S, m.contentHash ≠ h := by
  simp [hashExists]

theorem find?_none_of_hashExists_false {S : List Record} {h : String}
    (hh : hashExists S h = false) :
    S.find? (fun m => m.contentHash == h) = none := by
  rw [List.find?_eq_none]
  intro x hx
  simpa using hashExists_false_iff.mp hh x hx

theorem effectiveHash_of_none {b : Block} (h : b.hash = none) :
    effectiveHash b = generateContentHash b.content := by
  simp [effectiveHash, h]

theorem effectiveHash_of_some {b : Block} {h : String} (hb : b.hash = some h)
    (hne : h ≠ "") : effectiveHash b = h := by
  simp [effectiveHash, hb, hne]

theorem generateContentHash_congr {a b : String} (h : jsTrim a = jsTrim b) :
    generateContentHash a = generateContentHash b := by
  simp only [generateContentHash, h]

theorem generateContentHash_of_trim_empty {c : String} (h : jsTrim c = "") :
    generateContentHash c = "0" := by
  simp only [generateContentHash, h]
  rfl

theorem storeLoop_nil (src : Source) (ts : String) (ids : List String)
    (store : List Record) : storeLoop src ts [] ids store = ⟨store, [], []⟩ := rfl

theorem storeLoop_cons_dup {b : Block} {store : List Record} {m : Record}
    (src : Source) (ts : String) (bs : List Block) (ids : List String)
    (hf : store.find? (fun r => r.contentHash == effectiveHash b) = some m) :
    storeLoop src ts (b :: bs) ids store =
      ⟨(storeLoop src ts bs ids store).newStore,
       (storeLoop src ts bs ids store).stored,
       (effectiveHash b, m.id) :: (storeLoop src ts bs ids store).duplicates⟩ := by
  simp only [storeLoop, hf]

theorem storeLoop_cons_new {b : Block} {store : List Record}
    (src : Source) (ts : String) (bs : List Block) (ids : List String)
    (hf : store.find? (fun r => r.contentHash == effectiveHash b) = none) :
    storeLoop src ts (b :: bs) ids store =
      ⟨(storeLoop src ts bs ids.tail
          (store ++ [buildRecord (ids.headD "generated-id") b (effectiveHash b) src ts])).newStore,
       buildRecord (ids.headD "generated-id") b (effectiveHash b) src ts ::
         (storeLoop src ts bs ids.tail
           (store ++ [buildRecord (ids.headD "generated-id") b (effectiveHash b) src ts])).stored,
       (storeLoop src ts bs ids.tail
          (store ++ [buildRecord (ids.headD "generated-id") b (effectiveHash b) src ts])).duplicates⟩ := by
  simp only [storeLoop, hf]

end LocalMCPClient

/-- C6 counterexample: a block whose content trims to the empty string
is *not* skipped by the store path — it is stored and counted. -/
theorem empty_block_stored_counterexample :
    (LocalMCPClient.storeBatch [] [⟨" ", none, none, none⟩] ⟨none, none, none⟩
        ["i1"] "t").stored.length = 1 ∧
    (LocalMCPClient.storeBatch [] [⟨" ", none, none, none⟩] ⟨none, none, none⟩
        ["i1"] "t").newStore.length = 1 := by
  decide

/-- C6 (amended): the server store path has no empty-content check; a
block whose content trims to empty and carries no hash is hashed to
`"0"` and, when that hash is fresh, stored and counted as stored. -/
theorem empty_block_stored (S : List LocalMCPClient.Record) (b : LocalMCPClient.Block)
    (meta : LocalMCPClient.Metadata) (ids : List String) (ts : String)
    (h1 : b.hash = none) (h2 : jsTrim b.content = "")
    (h3 : LocalMCPClient.hashExists S "0" = false) :
    (LocalMCPClient.storeBatch S [b] meta ids ts).stored.length = 1 ∧
    (LocalMCPClient.storeBatch S [b] meta ids ts).duplicates = [] ∧
    (LocalMCPClient.storeBatch S [b] meta ids ts).newStore.length = S.length + 1 := by
  have hh : LocalMCPClient.effectiveHash b = "0" := by
    rw [LocalMCPClient.effectiveHash_of_none h1,
      LocalMCPClient.generateContentHash_of_trim_empty h2]
  have hf : S.find? (fun r => r.contentHash == LocalMCPClient.effectiveHash b) = none := by
    rw [hh]
    exact LocalMCPClient.find?_none_of_hashExists_false h3
  unfold LocalMCPClient.storeBatch
  rw [LocalMCPClient.storeLoop_cons_new _ _ _ _ hf, LocalMCPClient.storeLoop_nil]
  simp

theorem empty_block_stored_witness :
    (LocalMCPClient.storeBatch [] [⟨"  ", none, none, none⟩] ⟨none, none, none⟩
        ["i1"] "t").stored.length = 1 ∧
    (LocalMCPClient.storeBatch [] [⟨"  ", none, none, none⟩] ⟨none, none, none⟩
        ["i1"] "t").duplicates = [] ∧
    (LocalMCPClient.storeBatch [] [⟨"  ", none, none, none⟩] ⟨none, none, none⟩
        ["i1"] "t").newStore.length = 0 + 1 :=
  empty_block_stored [] ⟨"  ", none, none, none⟩ ⟨none, none, none⟩ ["i1"] "t"
    rfl (by decide) rfl

theorem jsSplitChar_length (sep : Char) (l : List Char) :
    (jsSplitChar sep l).length = l.count sep + 1 := by
  induction l with
  | nil => rfl
  | cons c rest ih =>
    simp only [jsSplitChar]
    cases hsplit : jsSplitChar sep rest with
    | nil => rw [hsplit] at ih; simp at ih
    | cons t ts =>
      rw [hsplit] at ih
      simp only [List.length_cons] at ih
      by_cases hc : c = sep
      · simp [hc, List.count_cons]
        omega
      · simp [hc, List.count_cons]
        omega

/-- C7 counterexample: for content `"a  b"` (two spaces) the server
computes `wordCount = 3` via `split(' ')`, while splitting on runs of
whitespace gives 2 tokens. -/
theorem wordCount_counterexample :
    ((LocalMCPClient.storeBatch [] [⟨"a  b", none, none, none⟩] ⟨none, none, none⟩
        ["i1"] "t").stored.map LocalMCPClient.Record.wordCount) = [3] ∧
    wsRunTokens "a  b" = 2 ∧ (3 : Nat) ≠ 2 := by
  decide

/-- C7 (amended): a record built without a caller-supplied word count
gets `wordCount = content.split(' ').length`, which equals the number
of single-space characters in the content plus one (runs of spaces
produce empty fields; other whitespace does not separate). -/
theorem wordCount_single_space_split (S : List LocalMCPClient.Record)
    (b : LocalMCPClient.Block) (meta : LocalMCPClient.Metadata) (ids : List String)
    (ts : String) (h1 : b.wordCount = none)
    (h3 : LocalMCPClient.hashExists S (LocalMCPClient.effectiveHash b) = false) :
    ∃ r, (LocalMCPClient.storeBatch S [b] meta ids ts).stored = [r] ∧
      r.wordCount = b.content.data.count ' ' + 1 := by
  have hf : S.find? (fun m => m.contentHash == LocalMCPClient.effectiveHash b) = none :=
    LocalMCPClient.find?_none_of_hashExists_false h3
  unfold LocalMCPClient.storeBatch
  rw [LocalMCPClient.storeLoop_cons_new _ _ _ _ hf, LocalMCPClient.storeLoop_nil]
  refine ⟨_, rfl, ?_⟩
  simp [LocalMCPClient.buildRecord, LocalMCPClient.effectiveWordCount, h1,
    jsSplitChar_length]

theorem wordCount_single_space_split_witness :
    ∃ r, (LocalMCPClient.storeBatch [] [⟨"a  b", none, none, none⟩] ⟨none, none, none⟩
        ["i1"] "t").stored = [r] ∧
      r.wordCount = ("a  b" : String).data.count ' ' + 1 :=
  wordCount_single_space_split [] ⟨"a  b", none, none, none⟩ ⟨none, none, none⟩
    ["i1"] "t" rfl rfl

namespace LocalMCPClient

theorem storeLoop_distinct (src : Source) (ts : String) :
    ∀ (bs : List Block) (ids : List String) (store : List Record),
      HashesDistinct store → HashesDistinct (storeLoop src ts bs ids store).newStore := by
  intro bs
  induction bs with
  | nil => intro ids store h; exact h
  | cons b rest ih =>
    intro ids store h
    cases hf : store.find? (fun m => m.contentHash == effectiveHash b) with
    | some m =>
      rw [storeLoop_cons_dup src ts rest ids hf]
      exact ih ids store h
    | none =>
      rw [storeLoop_cons_new src ts rest ids hf]
      apply ih
      unfold HashesDistinct
      rw [List.pairwise_append]
      refine ⟨h, by simp, ?_⟩
      intro a ha r hr
      simp only [List.mem_singleton] at hr
      subst hr
      have := List.find?_eq_none.mp hf a ha
      simpa [buildRecord] using this

theorem applyOp_distinct {S : List Record} (h : HashesDistinct S) (op : StoreOp) :
    HashesDistinct (applyOp S op) := by
  cases op with
  | store blocks meta ids ts => exact storeLoop_distinct _ _ _ _ _ h
  | delete i =>
    simp only [applyOp, deleteById]
    split
    · exact List.Pairwise.sublist (List.eraseIdx_sublist S _) h
    · exact h
  | clear => exact List.Pairwise.nil

theorem foldl_applyOp_distinct (ops : List StoreOp) :
    ∀ S, HashesDistinct S → HashesDistinct (ops.foldl applyOp S) := by
  induction ops with
  | nil => intro S h; exact h
  | cons op rest ih =>
    intro S h
    exact ih _ (applyOp_distinct h op)

end LocalMCPClient

/-- C2: starting from the empty store, every sequence of store
operations leaves the record list with pairwise-distinct content
hashes; and appending two blocks with equal trimmed content (hashes
computed server-side) stores exactly one record, the second append
being reported as a duplicate, leaving the store unchanged. -/
theorem store_hash_uniqueness :
    (∀ ops : List LocalMCPClient.StoreOp,
      LocalMCPClient.HashesDistinct (LocalMCPClient.applyOps ops)) ∧
    (∀ (S : List LocalMCPClient.Record) (b1 b2 : LocalMCPClient.Block)
        (m1 m2 : LocalMCPClient.Metadata) (ids1 ids2 : List String) (ts1 ts2 : String),
      b1.hash = none → b2.hash = none →
      jsTrim b1.content = jsTrim b2.content →
      LocalMCPClient.hashExists S
        (LocalMCPClient.generateContentHash b1.content) = false →
      (LocalMCPClient.storeBatch S [b1] m1 ids1 ts1).stored.length = 1 ∧
      (LocalMCPClient.storeBatch S [b1] m1 ids1 ts1).duplicates = [] ∧
      (LocalMCPClient.storeBatch
        (LocalMCPClient.storeBatch S [b1] m1 ids1 ts1).newStore [b2] m2 ids2 ts2).stored
          = [] ∧
      (LocalMCPClient.storeBatch
        (LocalMCPClient.storeBatch S [b1] m1 ids1 ts1).newStore [b2] m2 ids2
          ts2).duplicates.length = 1 ∧
      (LocalMCPClient.storeBatch
        (LocalMCPClient.storeBatch S [b1] m1 ids1 ts1).newStore [b2] m2 ids2 ts2).newStore
          = (LocalMCPClient.storeBatch S [b1] m1 ids1 ts1).newStore) := by
  constructor
  · intro ops
    exact LocalMCPClient.foldl_applyOp_distinct ops [] List.Pairwise.nil
  · intro S b1 b2 m1 m2 ids1 ids2 ts1 ts2 hb1 hb2 htrim hfresh
    have hh1 : LocalMCPClient.effectiveHash b1 =
        LocalMCPClient.generateContentHash b1.content :=
      LocalMCPClient.effectiveHash_of_none hb1
    have hh2 : LocalMCPClient.effectiveHash b2 =
        LocalMCPClient.generateContentHash b1.content := by
      rw [LocalMCPClient.effectiveHash_of_none hb2]
      exact (LocalMCPClient.generateContentHash_congr htrim).symm
    have hf1 : S.find?
        (fun m => m.contentHash == LocalMCPClient.effectiveHash b1) = none := by
      rw [hh1]
      exact LocalMCPClient.find?_none_of_hashExists_false hfresh
    set r1 := LocalMCPClient.buildRecord (ids1.headD "generated-id") b1
      (LocalMCPClient.effectiveHash b1) (LocalMCPClient.sourceOf m1) ts1 with hr1
    have hr1hash : r1.contentHash = LocalMCPClient.generateContentHash b1.content := by
      rw [hr1]
      simpa [LocalMCPClient.buildRecord] using hh1
    have ho1 : LocalMCPClient.storeBatch S [b1] m1 ids1 ts1 = ⟨S ++ [r1], [r1], []⟩ := by
      unfold LocalMCPClient.storeBatch
      rw [LocalMCPClient.storeLoop_cons_new _ _ _ _ hf1, LocalMCPClient.storeLoop_nil]
    have hf2 : (S ++ [r1]).find?
        (fun m => m.contentHash == LocalMCPClient.effectiveHash b2) = some r1 := by
      rw [List.find?_append]
      have hleft : S.find?
          (fun m => m.contentHash == LocalMCPClient.effectiveHash b2) = none := by
        rw [hh2]
        exact LocalMCPClient.find?_none_of_hashExists_false hfresh
      rw [hleft]
      simp [List.find?, hr1hash, hh2]
    have ho2 : LocalMCPClient.storeBatch (S ++ [r1]) [b2] m2 ids2 ts2 =
        ⟨S ++ [r1], [], [(LocalMCPClient.effectiveHash b2, r1.id)]⟩ := by
      unfold LocalMCPClient.storeBatch
      rw [LocalMCPClient.storeLoop_cons_dup _ _ _ _ hf2, LocalMCPClient.storeLoop_nil]
    simp [ho1, ho2]

theorem store_hash_uniqueness_witness :
    LocalMCPClient.HashesDistinct (LocalMCPClient.applyOps []) ∧
    (LocalMCPClient.storeBatch [] [⟨"dup", none, none, none⟩] ⟨none, none, none⟩
        ["i1"] "t1").stored.length = 1 ∧
    (LocalMCPClient.storeBatch
      (LocalMCPClient.storeBatch [] [⟨"dup", none, none, none⟩] ⟨none, none, none⟩
          ["i1"] "t1").newStore
      [⟨" dup ", none, none, none⟩] ⟨none, none, none⟩ ["i2"] "t2").stored = [] := by
  have h := store_hash_uniqueness
  have h2 := h.2 [] ⟨"dup", none, none, none⟩ ⟨" dup ", none, none, none⟩
    ⟨none, none, none⟩ ⟨none, none, none⟩ ["i1"] ["i2"] "t1" "t2"
    rfl rfl (by decide) rfl
  exact ⟨h.1 [], h2.1, h2.2.2.1⟩

/-- C10: within one batch, two blocks with the same content hash on a
fresh store result in the first being stored and the second reported
as a duplicate of the first's freshly assigned id — the duplicate
check runs against the in-memory list as already extended by the
earlier blocks of the batch. -/
theorem intra_batch_duplicate_detected (S : List LocalMCPClient.Record)
    (b1 b2 : LocalMCPClient.Block) (meta : LocalMCPClient.Metadata)
    (ids : List String) (ts : String)
    (hEq : LocalMCPClient.effectiveHash b1 = LocalMCPClient.effectiveHash b2)
    (hFresh : LocalMCPClient.hashExists S (LocalMCPClient.effectiveHash b1) = false) :
    ∃ r, (LocalMCPClient.storeBatch S [b1, b2] meta ids ts).stored = [r] ∧
      r.content = b1.content ∧
      r.contentHash = LocalMCPClient.effectiveHash b1 ∧
      (LocalMCPClient.storeBatch S [b1, b2] meta ids ts).duplicates =
        [(LocalMCPClient.effectiveHash b2, r.id)] ∧
      (LocalMCPClient.storeBatch S [b1, b2] meta ids ts).newStore = S ++ [r] := by
  have hf1 : S.find?
      (fun m => m.contentHash == LocalMCPClient.effectiveHash b1) = none :=
    LocalMCPClient.find?_none_of_hashExists_false hFresh
  set r1 := LocalMCPClient.buildRecord (ids.headD "generated-id") b1
    (LocalMCPClient.effectiveHash b1) (LocalMCPClient.sourceOf meta) ts with hr1
  have hr1hash : r1.contentHash = LocalMCPClient.effectiveHash b1 := by
    rw [hr1]
    simp [LocalMCPClient.buildRecord]
  have hf2 : (S ++ [r1]).find?
      (fun m => m.contentHash == LocalMCPClient.effectiveHash b2) = some r1 := by
    rw [List.find?_append]
    have hleft : S.find?
        (fun m => m.contentHash == LocalMCPClient.effectiveHash b2) = none := by
      rw [← hEq]
      exact hf1
    rw [hleft]
    simp [List.find?, hr1hash, hEq]
  refine ⟨r1, ?_⟩
  unfold LocalMCPClient.storeBatch
  rw [LocalMCPClient.storeLoop_cons_new _ _ _ _ hf1,
    LocalMCPClient.storeLoop_cons_dup _ _ _ _ hf2, LocalMCPClient.storeLoop_nil]
  simp [hr1, LocalMCPClient.buildRecord]

theorem intra_batch_duplicate_detected_witness :
    ∃ r, (LocalMCPClient.storeBatch [] [⟨"x", none, none, none⟩, ⟨"x", none, none, none⟩]
        ⟨none, none, none⟩ ["i1", "i2"] "t").stored = [r] ∧
      r.content = "x" ∧
      r.contentHash = LocalMCPClient.effectiveHash ⟨"x", none, none, none⟩ ∧
      (LocalMCPClient.storeBatch [] [⟨"x", none, none, none⟩, ⟨"x", none, none, none⟩]
        ⟨none, none, none⟩ ["i1", "i2"] "t").duplicates =
        [(LocalMCPClient.effectiveHash ⟨"x", none, none, none⟩, r.id)] ∧
      (LocalMCPClient.storeBatch [] [⟨"x", none, none, none⟩, ⟨"x", none, none, none⟩]
        ⟨none, none, none⟩ ["i1", "i2"] "t").newStore = [] ++ [r] :=
  intra_batch_duplicate_detected [] ⟨"x", none, none, none⟩ ⟨"x", none, none, none⟩
    ⟨none, none, none⟩ ["i1", "i2"] "t" rfl rfl

/-- C3: the `check-hashes` side channel and the store path consult the
same `hashExists` state: a hash reported existing is exactly one that
a block carrying it would have rejected as duplicate, and a hash
reported absent is exactly one that would be accepted (no interleaved
mutation between the two calls). -/
theorem checkHashes_agrees_with_store_path (S : List LocalMCPClient.Record)
    (h : String) (b : LocalMCPClient.Block) (meta : LocalMCPClient.Metadata)
    (ids : List String) (ts : String) (hb : b.hash = some h) (hne : h ≠ "") :
    (LocalMCPClient.checkHashes S [h] = [(h, true)] ↔
      (LocalMCPClient.storeBatch S [b] meta ids ts).duplicates.length = 1 ∧
      (LocalMCPClient.storeBatch S [b] meta ids ts).stored = []) ∧
    (LocalMCPClient.checkHashes S [h] = [(h, false)] ↔
      (LocalMCPClient.storeBatch S [b] meta ids ts).stored.length = 1 ∧
      (LocalMCPClient.storeBatch S [b] meta ids ts).duplicates = []) := by
  have hh : LocalMCPClient.effectiveHash b = h :=
    LocalMCPClient.effectiveHash_of_some hb hne
  cases hE : LocalMCPClient.hashExists S h with
  | false =>
    have hf : S.find? (fun m => m.contentHash == LocalMCPClient.effectiveHash b) = none := by
      rw [hh]
      exact LocalMCPClient.find?_none_of_hashExists_false hE
    have ho : LocalMCPClient.storeBatch S [b] meta ids ts =
        ⟨S ++ [LocalMCPClient.buildRecord (ids.headD "generated-id") b
          (LocalMCPClient.effectiveHash b) (LocalMCPClient.sourceOf meta) ts],
         [LocalMCPClient.buildRecord (ids.headD "generated-id") b
          (LocalMCPClient.effectiveHash b) (LocalMCPClient.sourceOf meta) ts], []⟩ := by
      unfold LocalMCPClient.storeBatch
      rw [LocalMCPClient.storeLoop_cons_new _ _ _ _ hf, LocalMCPClient.storeLoop_nil]
    simp [LocalMCPClient.checkHashes, hE, ho]
  | true =>
    have hsome : (S.find? (fun m => m.contentHash == h)).isSome := by
      rw [List.find?_isSome]
      simpa [LocalMCPClient.hashExists] using hE
    cases hf : S.find? (fun m => m.contentHash == h) with
    | none => rw [hf] at hsome; simp at hsome
    | some m =>
      have hf2 : S.find? (fun r => r.contentHash == LocalMCPClient.effectiveHash b) =
          some m := by
        rw [hh]
        exact hf
      have ho : LocalMCPClient.storeBatch S [b] meta ids ts =
          ⟨S, [], [(LocalMCPClient.effectiveHash b, m.id)]⟩ := by
        unfold LocalMCPClient.storeBatch
        rw [LocalMCPClient.storeLoop_cons_dup _ _ _ _ hf2, LocalMCPClient.storeLoop_nil]
      simp [LocalMCPClient.checkHashes, hE, ho]

theorem checkHashes_agrees_with_store_path_witness :
    LocalMCPClient.checkHashes [] ["abc"] = [("abc", false)] ↔
      (LocalMCPClient.storeBatch [] [⟨"c", some "abc", none, none⟩] ⟨none, none, none⟩
        ["i1"] "t").stored.length = 1 ∧
      (LocalMCPClient.storeBatch [] [⟨"c", some "abc", none, none⟩] ⟨none, none, none⟩
        ["i1"] "t").duplicates = [] :=
  (checkHashes_agrees_with_store_path [] "abc" ⟨"c", some "abc", none, none⟩
    ⟨none, none, none⟩ ["i1"] "t" rfl (by decide)).2

/-- C8 counterexample: with a failing disk write the store handler
still reports success (the save error is caught and only logged). -/
theorem write_failure_reports_success :
    (LocalMCPClient.mcpStoreHandler [] (some [⟨"x", none, none, none⟩])
        ⟨none, none, none⟩ ["i1"] "t" .diskError).1 =
      LocalMCPClient.StoreResponse.success 1 0 1 := by
  decide

/-- C8 (amended): a disk write failure during a store batch is
swallowed by `saveMemoryStore`: the handler's response is the success
response regardless of the write outcome, and the in-memory state is
the batch result either way (not rolled back, but also no failure is
surfaced). -/
theorem write_failure_swallowed (S : List LocalMCPClient.Record)
    (bs : List LocalMCPClient.Block) (meta : LocalMCPClient.Metadata)
    (ids : List String) (ts : String) (w : LocalMCPClient.WriteOutcome) :
    LocalMCPClient.mcpStoreHandler S (some bs) meta ids ts w =
      (LocalMCPClient.StoreResponse.success
        (LocalMCPClient.storeBatch S bs meta ids ts).stored.length
        (LocalMCPClient.storeBatch S bs meta ids ts).duplicates.length
        (LocalMCPClient.storeBatch S bs meta ids ts).newStore.length,
       (LocalMCPClient.storeBatch S bs meta ids ts).newStore) := by
  cases w <;> rfl

namespace LocalMCPClient

theorem filter_step (S : List Record) (crit : Option String) (p : Record → String → Bool) :
    (match crit with
     | some s => if s = "" then S else S.filter (fun m => p m s)
     | none => S) =
      S.filter (fun m =>
        match crit with
        | some s => s == "" || p m s
        | none => true) := by
  cases crit with
  | none => simp
  | some s =>
    by_cases hs : s = ""
    · subst hs
      simp
    · simp only [if_neg hs]
      apply List.filter_congr
      intro m _
      simp [beq_iff_eq, hs]

theorem searchMemories_eq_filter (pd : String → Int) (S : List Record) (q : Query) :
    searchMemories pd S q =
      (List.insertionSort (rDesc pd) (S.filter (searchPred pd q))).take
        (q.limit.getD 50) := by
  unfold searchMemories
  simp only [filter_step]
  simp only [List.filter_filter]
  apply congrArg (List.take (q.limit.getD 50))
  apply congrArg (List.insertionSort (rDesc pd))
  apply List.filter_congr
  intro m _
  unfold searchPred
  rcases q with ⟨lim, os, ot, osin⟩
  cases os <;> cases ot <;> cases osin <;>
    simp [Bool.and_comm, Bool.and_left_comm, Bool.and_assoc]

end LocalMCPClient

/-- C9: search applies the optional criteria conjunctively (free-text
case-insensitive substring against content or any tag, case-insensitive
tag-list membership, minimum timestamp bound), returns the matches
sorted newest-first by timestamp, truncated to the caller limit, with
the finite default limit 50 when none is supplied. -/
theorem search_conjunctive_sorted_limited (pd : String → Int)
    (S : List LocalMCPClient.Record) (q : LocalMCPClient.Query) :
    LocalMCPClient.searchMemories pd S q =
      (List.insertionSort (LocalMCPClient.rDesc pd)
        (S.filter (LocalMCPClient.searchPred pd q))).take (q.limit.getD 50) ∧
    (LocalMCPClient.searchMemories pd S q).Sorted (LocalMCPClient.rDesc pd) ∧
    (LocalMCPClient.searchMemories pd S q).length ≤ q.limit.getD 50 ∧
    (q.limit = none → q.limit.getD 50 = 50) ∧
    (∀ m ∈ LocalMCPClient.searchMemories pd S q,
      m ∈ S ∧ LocalMCPClient.searchPred pd q m = true) ∧
    ((S.filter (LocalMCPClient.searchPred pd q)).length ≤ q.limit.getD 50 →
      ∀ m ∈ S, LocalMCPClient.searchPred pd q m = true →
        m ∈ LocalMCPClient.searchMemories pd S q) := by
  have heq := LocalMCPClient.searchMemories_eq_filter pd S q
  haveI : IsTotal LocalMCPClient.Record (LocalMCPClient.rDesc pd) :=
    ⟨fun a b => Int.le_total _ _⟩
  haveI : IsTrans LocalMCPClient.Record (LocalMCPClient.rDesc pd) :=
    ⟨fun _ _ _ h1 h2 => Int.le_trans h2 h1⟩
  refine ⟨heq, ?_, ?_, ?_, ?_, ?_⟩
  · rw [heq]
    exact List.Pairwise.sublist (List.take_sublist _ _)
      (List.sorted_insertionSort (LocalMCPClient.rDesc pd) _)
  · rw [heq]
    exact List.length_take_le _ _
  · intro h
    rw [h]
    rfl
  · intro m hm
    rw [heq] at hm
    have hm2 : m ∈ List.insertionSort (LocalMCPClient.rDesc pd)
        (S.filter (LocalMCPClient.searchPred pd q)) :=
      List.take_subset _ _ hm
    rw [List.mem_insertionSort] at hm2
    exact ⟨(List.mem_filter.mp hm2).1, (List.mem_filter.mp hm2).2⟩
  · intro hlen m hmS hpm
    rw [heq, List.take_of_length_le (by rw [List.length_insertionSort]; exact hlen),
      List.mem_insertionSort]
    exact List.mem_filter.mpr ⟨hmS, hpm⟩

theorem search_conjunctive_sorted_limited_witness :
    ((LocalMCPClient.Query.mk none none none none).limit.getD 50 = 50) ∧
    sampleRecord ∈ LocalMCPClient.searchMemories (fun _ => 0) [sampleRecord]
      ⟨none, none, none, none⟩ := by
  have h := search_conjunctive_sorted_limited (fun _ => 0) [sampleRecord]
    ⟨none, none, none, none⟩
  refine ⟨h.2.2.2.1 rfl, ?_⟩
  exact h.2.2.2.2.2 (by decide) sampleRecord (by simp) (by decide)
